import Mathlib

/-!
Verification development for the mapviewer repository: a shallow embedding of
the code in src/ (binary codec, delta decoding, zoom-interval lookup, theme
matching, material classification, bounding boxes and the render manager
decision logic) together with theorems settling the specification claims.

Conventions of the embedding:
  - Rust machine integers are modeled as Nat or Int, with an explicit
    `% 2 ^ 64` at the one place (vbe_u accumulation) where u64 wraparound
    is reachable; i64 and i32 arithmetic that cannot overflow on the inputs
    the theorems quantify over is modeled as exact Int arithmetic.
  - Rust truncating integer division on i64 is modeled by Int.tdiv.
  - fallible parsers (nom IResult) are modeled with Option; a returned pair
    is (remaining input, value), mirroring the nom convention.
  - HashMap values are modeled as association lists or as functions
    `key -> Option value` (insert overwrites, as for HashMap).
-/

/-- Unsigned varint decoder from src/src/mapsforge/parse.rs (fn vbe_u):
`take_while(|c| c & 0x80 != 0)` collects the continuation bytes, `be_u8`
takes the terminating byte (failing on empty input), and the accumulator
starts from the terminator and folds the continuation bytes in reverse
order with `ret = (ret << 7) | (c & 0x7f)` on u64. -/
def vbe_u (i : List Nat) : Option (List Nat × Nat) :=
  let rest := i.takeWhile (fun c => c &&& 0x80 != 0)
  match i.dropWhile (fun c => c &&& 0x80 != 0) with
  | [] => none
  | first :: i2 =>
      some (i2, rest.reverse.foldl
        (fun ret c => ((ret <<< 7) % 2 ^ 64) ||| (c &&& 0x7f)) first)

/-- Value of a list of 7-bit groups in little-endian order: the head is the
least significant group. Used to state what vbe_u computes. -/
def groups7 : List Nat → Nat
  | [] => 0
  | c :: cs => (c &&& 0x7f) + 128 * groups7 cs

lemma and_0x7f_lt (c : Nat) : c &&& 0x7f < 128 :=
  Nat.lt_succ_of_le (Nat.and_le_right)

lemma groups7_lt (cs : List Nat) : groups7 cs < 2 ^ (7 * cs.length) := by
  induction cs with
  | nil => simp [groups7]
  | cons c cs ih =>
      have hc : c &&& 0x7f < 128 := and_0x7f_lt c
      calc groups7 (c :: cs) = (c &&& 0x7f) + 128 * groups7 cs := rfl
        _ < 128 * 2 ^ (7 * cs.length) := by
            set x := c &&& 0x7f with hx
            set g := groups7 cs with hg
            set P := 2 ^ (7 * cs.length) with hP
            omega
        _ = 2 ^ (7 * (c :: cs).length) := by
            rw [List.length_cons]
            rw [show 7 * (cs.length + 1) = 7 * cs.length + 7 by ring]
            rw [pow_add]
            ring

lemma two_pow_mul_lor_eq_add (n : Nat) :
    ∀ a b : Nat, b < 2 ^ n → (2 ^ n * a) ||| b = 2 ^ n * a + b := by
  induction n with
  | zero =>
      intro a b hb
      have : b = 0 := by omega
      subst this
      simp
  | succ n ih =>
      intro a b hb
      have hs : b >>> 1 = b / 2 := Nat.shiftRight_one b
      have hpow : 2 ^ (n + 1) = 2 * 2 ^ n := by ring
      have hb2 : b >>> 1 < 2 ^ n := by
        rw [hs]
        omega
      have hbit : Nat.bit (b.testBit 0) (b >>> 1) = b :=
        Nat.bit_testBit_zero_shiftRight_one b
      have hleft : 2 ^ (n + 1) * a = Nat.bit false (2 ^ n * a) := by
        rw [Nat.bit_val]
        simp
        rw [hpow]
        ring
      have hm : (b.testBit 0).toNat = b % 2 := by
        have := Nat.toNat_testBit b 0
        simpa using this
      calc (2 ^ (n + 1) * a) ||| b
          = Nat.bit false (2 ^ n * a) ||| Nat.bit (b.testBit 0) (b >>> 1) := by
            rw [hbit, ← hleft]
        _ = Nat.bit (false || b.testBit 0) ((2 ^ n * a) ||| (b >>> 1)) :=
            Nat.lor_bit false (2 ^ n * a) (b.testBit 0) (b >>> 1)
        _ = Nat.bit (b.testBit 0) (2 ^ n * a + b >>> 1) := by
            rw [ih a (b >>> 1) hb2]
            simp
        _ = 2 ^ (n + 1) * a + b := by
            rw [Nat.bit_val, hm, hs, hpow]
            set q := 2 ^ n * a with hq
            have hdm := Nat.div_add_mod b 2
            rw [show 2 * 2 ^ n * a = 2 * q by rw [hq]; ring]
            omega

lemma takeWhile_append_all {p : Nat → Bool} (rest : List Nat) (t : Nat)
    (tail : List Nat) (hrest : ∀ c ∈ rest, p c = true) (ht : p t = false) :
    (rest ++ t :: tail).takeWhile p = rest ∧
      (rest ++ t :: tail).dropWhile p = t :: tail := by
  induction rest with
  | nil => simp [List.takeWhile, List.dropWhile, ht]
  | cons c cs ih =>
      have hc : p c = true := hrest c (by simp)
      have ih2 := ih (fun x hx => hrest x (by simp [hx]))
      simp [List.takeWhile, List.dropWhile, hc, ih2.1, ih2.2]

lemma vbe_u_fold (rest : List Nat) (t : Nat) (ht : t < 128)
    (hlen : 7 * rest.length + 7 ≤ 64) :
    rest.reverse.foldl (fun ret c => ((ret <<< 7) % 2 ^ 64) ||| (c &&& 0x7f)) t
      = groups7 rest + t * 2 ^ (7 * rest.length) := by
  induction rest with
  | nil => simp [groups7]
  | cons c cs ih =>
      have hlen2 : 7 * cs.length + 7 ≤ 64 := by
        simp only [List.length_cons] at hlen
        omega
      have hval := ih hlen2
      have hbound : groups7 cs + t * 2 ^ (7 * cs.length) < 2 ^ (7 * cs.length + 7) := by
        have h1 := groups7_lt cs
        have h2 : t * 2 ^ (7 * cs.length) ≤ 127 * 2 ^ (7 * cs.length) :=
          Nat.mul_le_mul_right _ (by omega)
        have h3 : 2 ^ (7 * cs.length + 7) = 128 * 2 ^ (7 * cs.length) := by
          rw [pow_add]; ring
        set g := groups7 cs with hg
        set P := 2 ^ (7 * cs.length) with hP
        omega
      set V := groups7 cs + t * 2 ^ (7 * cs.length) with hV
      have hshift : (V <<< 7) % 2 ^ 64 = 2 ^ 7 * V := by
        rw [Nat.shiftLeft_eq]
        have hVlt : V * 2 ^ 7 < 2 ^ 64 := by
          have hstep : V * 2 ^ 7 < 2 ^ (7 * cs.length + 7) * 2 ^ 7 :=
            mul_lt_mul_of_pos_right hbound (by norm_num)
          have hle : 2 ^ (7 * cs.length + 7) * 2 ^ 7 ≤ 2 ^ 64 := by
            rw [← pow_add]
            exact Nat.pow_le_pow_right (by norm_num)
              (by simp only [List.length_cons] at hlen; omega)
          omega
        rw [Nat.mod_eq_of_lt hVlt]
        ring
      have hc7 : c &&& 0x7f < 2 ^ 7 := and_0x7f_lt c
      calc (c :: cs).reverse.foldl
            (fun ret x => ((ret <<< 7) % 2 ^ 64) ||| (x &&& 0x7f)) t
          = ((V <<< 7) % 2 ^ 64) ||| (c &&& 0x7f) := by
            rw [List.reverse_cons, List.foldl_append, hval]
            simp [List.foldl]
        _ = (2 ^ 7 * V) ||| (c &&& 0x7f) := by rw [hshift]
        _ = 2 ^ 7 * V + (c &&& 0x7f) := two_pow_mul_lor_eq_add 7 V _ hc7
        _ = groups7 (c :: cs) + t * 2 ^ (7 * (c :: cs).length) := by
            simp only [groups7, hV, List.length_cons]
            rw [show 7 * (cs.length + 1) = 7 * cs.length + 7 by ring, pow_add]
            ring

/-- C4 (counterexample): the claim says the terminating byte contributes the
least significant 7 bits and the continuation bytes the higher groups in
reverse order; on input [0x80, 0x01] that reading predicts
(0x01 and 0x7f) + (0x80 and 0x7f) * 128 = 1, but the decoder returns 128. -/
theorem vbe_u_terminator_not_least_significant :
    vbe_u [0x80, 0x01] = some ([], 128) ∧
      (128 : Nat) ≠ (0x01 &&& 0x7f) + (0x80 &&& 0x7f) * 128 := by
  constructor
  · rfl
  · decide

/-- C4 (amended): for every byte string the decoder accepts, written as
continuation bytes `rest` (high bit set) followed by a terminator `t` (high
bit clear) and a remainder, and short enough that the u64 accumulator does
not wrap, the result consumes exactly `rest` and `t`, the continuation
bytes contribute their low 7 bits as little-endian groups starting from the
least significant (first byte read = least significant group), and the
terminating byte contributes the most significant group. -/
theorem vbe_u_spec (rest : List Nat) (t : Nat) (tail : List Nat)
    (hrest : ∀ c ∈ rest, c &&& 0x80 ≠ 0) (ht : t < 128)
    (hlen : 7 * rest.length + 7 ≤ 64) :
    vbe_u (rest ++ t :: tail)
      = some (tail, groups7 rest + t * 2 ^ (7 * rest.length)) := by
  have htb : (fun c => c &&& 0x80 != 0) t = false := by
    have hz : t &&& 0x80 = 0 := by
      have hbit : t.testBit 7 = false :=
        Nat.testBit_eq_false_of_lt (by norm_num at ht ⊢; omega)
      have := Nat.and_two_pow t 7
      norm_num at this
      rw [this, hbit]
      simp
    simp [hz]
  have hrb : ∀ c ∈ rest, (fun c => c &&& 0x80 != 0) c = true := by
    intro c hc
    have := hrest c hc
    simpa using this
  have hsplit := takeWhile_append_all rest t tail hrb htb
  unfold vbe_u
  rw [hsplit.1, hsplit.2]
  simp only []
  rw [vbe_u_fold rest t ht hlen]

/-- C4 (witness): the amended theorem applied to the two-byte input
[0x80, 0x01] gives remainder [] and value 128. -/
theorem vbe_u_spec_witness : vbe_u [0x80, 0x01] = some ([], 128) := by
  have h := vbe_u_spec [0x80] 0x01 [] (by decide) (by decide) (by decide)
  simpa [groups7] using h

/-- Geographic point in signed microdegrees, from src/src/mapsforge/mod.rs
(struct LatLon { lat: i32, lon: i32 }). The i32 fields are modeled as Int;
the Rust additions in the delta decoders abort on i32 overflow in debug
builds, so the model covers the non-overflowing executions exactly. -/
structure LatLon where
  lat : Int
  lon : Int
deriving DecidableEq, Repr


/-- Loop body of decode_double_delta from src/src/mapsforge/parse.rs. The
mutable state is (cur, offset) plus the loop counter i used only for the
`if i > 0` guard on the offset update; the source's `last` binding (the
value of cur before the update) is inlined, so the updated offset is the
new cur minus the old cur, componentwise on i32 lat and lon. -/
def ddLoop (cur offset : LatLon) (i : Nat) : List LatLon → List LatLon
  | [] => []
  | point :: points =>
      (⟨cur.lat + offset.lat + point.lat, cur.lon + offset.lon + point.lon⟩ : LatLon) ::
        ddLoop ⟨cur.lat + offset.lat + point.lat, cur.lon + offset.lon + point.lon⟩
          (if i > 0 then
            ⟨cur.lat + offset.lat + point.lat - cur.lat, cur.lon + offset.lon + point.lon - cur.lon⟩
          else offset)
          (i + 1) points

/-- decode_double_delta from src/src/mapsforge/parse.rs: cur and offset
start at (0, 0) and the loop runs over the stored points. -/
def decode_double_delta (points : List LatLon) : List LatLon :=
  ddLoop ⟨0, 0⟩ ⟨0, 0⟩ 0 points

/-- Reference form of the loop tail once i is positive: the state is the
pair of the last two emitted points (u the most recent, v the one before),
so the running offset is u - v. -/
def dd2 (u v : LatLon) : List LatLon → List LatLon
  | [] => []
  | p :: ps =>
      (⟨u.lat + (u.lat - v.lat) + p.lat, u.lon + (u.lon - v.lon) + p.lon⟩ : LatLon) ::
        dd2 ⟨u.lat + (u.lat - v.lat) + p.lat, u.lon + (u.lon - v.lon) + p.lon⟩ u ps

lemma ddLoop_eq_dd2 (ps : List LatLon) :
    ∀ (u v : LatLon) (i : Nat), 0 < i →
      ddLoop u ⟨u.lat - v.lat, u.lon - v.lon⟩ i ps = dd2 u v ps := by
  induction ps with
  | nil => intro u v i hi; rfl
  | cons p ps ih =>
      intro u v i hi
      simp only [ddLoop, dd2, if_pos hi, List.cons.injEq]
      refine ⟨trivial, ?_⟩
      have h := ih ⟨u.lat + (u.lat - v.lat) + p.lat, u.lon + (u.lon - v.lon) + p.lon⟩ u
        (i + 1) (by omega)
      simpa using h

lemma dd2_length (ps : List LatLon) :
    ∀ u v, (dd2 u v ps).length = ps.length := by
  induction ps with
  | nil => intro u v; rfl
  | cons p ps ih => intro u v; simp only [dd2, List.length_cons]; rw [ih]

lemma dd2_head (u v p : LatLon) (ps : List LatLon) :
    (dd2 u v (p :: ps))[0]?
      = some (⟨u.lat + (u.lat - v.lat) + p.lat, u.lon + (u.lon - v.lon) + p.lon⟩ : LatLon) := by
  simp only [dd2, List.getElem?_cons_zero]

lemma dd2_second (ps : List LatLon) :
    ∀ (u v b d : LatLon), (dd2 u v ps)[0]? = some b → ps[1]? = some d →
      (dd2 u v ps)[1]?
        = some (⟨b.lat + (b.lat - u.lat) + d.lat, b.lon + (b.lon - u.lon) + d.lon⟩ : LatLon) := by
  intro u v b d hb hd
  match ps with
  | [] => simp [dd2] at hb
  | [p] => simp at hd
  | p :: q :: ps =>
      rw [dd2_head] at hb
      injection hb with hb
      simp only [List.getElem?_cons_succ, List.getElem?_cons_zero, Option.some.injEq] at hd
      subst hd
      rw [← hb]
      simp only [dd2, List.getElem?_cons_succ, List.getElem?_cons_zero]

lemma dd2_rec (ps : List LatLon) :
    ∀ (u v : LatLon) (j : Nat) (a b d : LatLon),
      (dd2 u v ps)[j]? = some a → (dd2 u v ps)[j + 1]? = some b →
      ps[j + 2]? = some d →
      (dd2 u v ps)[j + 2]?
        = some (⟨b.lat + (b.lat - a.lat) + d.lat, b.lon + (b.lon - a.lon) + d.lon⟩ : LatLon) := by
  induction ps with
  | nil => intro u v j a b d ha hb hd; simp [dd2] at ha
  | cons p ps ih =>
      intro u v j a b d ha hb hd
      cases j with
      | zero =>
          rw [dd2_head] at ha
          injection ha with ha
          simp only [dd2, List.getElem?_cons_succ] at hb ⊢
          simp only [List.getElem?_cons_succ] at hd
          have h2 := dd2_second ps
            ⟨u.lat + (u.lat - v.lat) + p.lat, u.lon + (u.lon - v.lon) + p.lon⟩ u b d hb hd
          rw [h2, ha]
      | succ j =>
          simp only [dd2, List.getElem?_cons_succ] at ha hb ⊢
          simp only [List.getElem?_cons_succ] at hd
          exact ih _ _ j a b d ha hb hd

/-- C5: double-delta decoding. The output has the same length as the input;
the first output point is the first stored value; the second output adds the
second stored value to the first output (the offset starts at zero and is
not updated on the first iteration); and from the third point on each output
equals the previous output plus the running offset (the difference of the
two previous outputs) plus the stored value, so the stored values are
second differences of the output series. The concrete stored series from
the spec decodes to the stated LatLon series. -/
theorem decode_double_delta_spec (xs : List LatLon) :
    (decode_double_delta xs).length = xs.length ∧
    (decode_double_delta xs)[0]? = xs[0]? ∧
    (∀ a d, (decode_double_delta xs)[0]? = some a → xs[1]? = some d →
      (decode_double_delta xs)[1]? = some (⟨a.lat + d.lat, a.lon + d.lon⟩ : LatLon)) ∧
    (∀ j a b d,
      (decode_double_delta xs)[j]? = some a →
      (decode_double_delta xs)[j + 1]? = some b →
      xs[j + 2]? = some d →
      (decode_double_delta xs)[j + 2]?
        = some (⟨b.lat + (b.lat - a.lat) + d.lat, b.lon + (b.lon - a.lon) + d.lon⟩ : LatLon)) ∧
    decode_double_delta [⟨0, 0⟩, ⟨1, 1⟩, ⟨0, 0⟩, ⟨0, 0⟩]
      = [⟨0, 0⟩, ⟨1, 1⟩, ⟨2, 2⟩, ⟨3, 3⟩] := by
  have hcons : ∀ (x : LatLon) (ys : List LatLon),
      decode_double_delta (x :: ys) = x :: dd2 x x ys := by
    intro x ys
    show ddLoop ⟨0, 0⟩ ⟨0, 0⟩ 0 (x :: ys) = _
    simp only [ddLoop, if_neg (by omega : ¬ (0 : Nat) > 0), List.cons.injEq]
    constructor
    · show (⟨(0 : Int) + 0 + x.lat, (0 : Int) + 0 + x.lon⟩ : LatLon) = x
      have : ((0 : Int) + 0 + x.lat) = x.lat := by ring
      have : ((0 : Int) + 0 + x.lon) = x.lon := by ring
      simp_all
    · have h := ddLoop_eq_dd2 ys x x 1 (by omega)
      have hz : (⟨x.lat - x.lat, x.lon - x.lon⟩ : LatLon) = (⟨0, 0⟩ : LatLon) := by simp
      rw [hz] at h
      have hx : (⟨(0 : Int) + 0 + x.lat, (0 : Int) + 0 + x.lon⟩ : LatLon) = x := by
        have h1 : ((0 : Int) + 0 + x.lat) = x.lat := by ring
        have h2 : ((0 : Int) + 0 + x.lon) = x.lon := by ring
        simp_all
      simp only [show ((0 : Int) + 0 + x.lat) = x.lat by ring,
        show ((0 : Int) + 0 + x.lon) = x.lon by ring]
      exact h
  cases xs with
  | nil =>
      refine ⟨rfl, rfl, ?_, ?_, by rfl⟩ <;> · intros; simp_all [decode_double_delta, ddLoop]
  | cons x xs =>
      rw [hcons x xs]
      refine ⟨?_, ?_, ?_, ?_, by rfl⟩
      · simp only [List.length_cons]
        rw [dd2_length]
      · simp
      · intro a d ha hd
        simp only [List.getElem?_cons_zero, Option.some.injEq] at ha
        simp only [List.getElem?_cons_succ] at hd ⊢
        cases xs with
        | nil => simp at hd
        | cons y ys =>
            simp only [List.getElem?_cons_zero, Option.some.injEq] at hd
            rw [dd2_head]
            rw [← ha, ← hd]
            simp
      · intro j a b d ha hb hd
        cases j with
        | zero =>
            simp only [List.getElem?_cons_zero, Option.some.injEq] at ha
            simp only [List.getElem?_cons_succ] at hb hd ⊢
            have h2 := dd2_second xs x x b d hb hd
            rw [h2, ha]
        | succ j =>
            simp only [List.getElem?_cons_succ] at ha hb hd ⊢
            exact dd2_rec xs _ _ j a b d ha hb hd

/-- C5 (witness): the recurrence clause of the spec theorem applied to the
concrete stored series from the spec, reading off the third point. -/
theorem decode_double_delta_spec_witness :
    (decode_double_delta [⟨0, 0⟩, ⟨1, 1⟩, ⟨0, 0⟩, ⟨0, 0⟩])[2]?
      = some (⟨2, 2⟩ : LatLon) :=
  (decode_double_delta_spec [⟨0, 0⟩, ⟨1, 1⟩, ⟨0, 0⟩, ⟨0, 0⟩]).2.2.2.1
    0 ⟨0, 0⟩ ⟨1, 1⟩ ⟨0, 0⟩ (by rfl) (by rfl) (by rfl)

/-- Zoom interval record from src/src/mapsforge/mod.rs (struct ZoomInterval
{ base, min, max: u8, start, len: u64 }). -/
structure ZoomInterval where
  base : Nat
  min : Nat
  max : Nat
  start : Nat
  len : Nat
deriving DecidableEq, Repr

/-- HashMap over Nat keys modeled as a function to Option, with insert
overwriting any previous binding, as HashMap::insert does. -/
def updateMap (m : Nat → Option Nat) (k v : Nat) : Nat → Option Nat :=
  fun q => if q = k then some v else m q

/-- The inner loop of MapFile::new in src/src/mapsforge/mod.rs:
`for level in zoom.min..=zoom.max { zoom_map.insert(level, idx); }`.
An inclusive Rust range min..=max is empty when min > max. -/
def insertRange (m : Nat → Option Nat) (lo hi idx : Nat) : Nat → Option Nat :=
  (List.range' lo (hi + 1 - lo)).foldl (fun acc level => updateMap acc level idx) m

/-- The outer loop of MapFile::new over the enumerated zoom intervals,
carrying the running interval index. -/
def zoomIntervalMapFrom : Nat → List ZoomInterval → (Nat → Option Nat) → Nat → Option Nat
  | _, [], m => m
  | idx, zi :: rest, m => zoomIntervalMapFrom (idx + 1) rest (insertRange m zi.min zi.max idx)

/-- The zoom_interval_map field computed by MapFile::new: zoom level to
index of the (last) zoom interval whose min..=max range holds it. -/
def zoom_interval_map (ints : List ZoomInterval) : Nat → Option Nat :=
  zoomIntervalMapFrom 0 ints (fun _ => none)

/-- A zoom interval covers a zoom level when min <= z <= max. -/
def coversZoom (zi : ZoomInterval) (z : Nat) : Prop :=
  zi.min ≤ z ∧ z ≤ zi.max

instance (zi : ZoomInterval) (z : Nat) : Decidable (coversZoom zi z) :=
  inferInstanceAs (Decidable (zi.min ≤ z ∧ z ≤ zi.max))

/-- Index of the last interval in the list covering z, if any; characterizes
what the insert-overwriting loop leaves in the map. -/
def lastCoveringIdx : List ZoomInterval → Nat → Option Nat
  | [], _ => none
  | zi :: rest, z =>
      match lastCoveringIdx rest z with
      | some k => some (k + 1)
      | none => if zi.min ≤ z ∧ z ≤ zi.max then some 0 else none

lemma foldl_update_range (idx : Nat) (n : Nat) :
    ∀ (lo : Nat) (m : Nat → Option Nat) (q : Nat),
      ((List.range' lo n).foldl (fun acc level => updateMap acc level idx) m) q
        = if lo ≤ q ∧ q < lo + n then some idx else m q := by
  induction n with
  | zero =>
      intro lo m q
      rw [if_neg (by omega)]
      rfl
  | succ n ih =>
      intro lo m q
      rw [List.range'_succ]
      simp only [List.foldl_cons]
      rw [ih]
      unfold updateMap
      split_ifs <;> first | rfl | (exfalso; omega)

lemma insertRange_apply (m : Nat → Option Nat) (lo hi idx q : Nat) :
    insertRange m lo hi idx q = if lo ≤ q ∧ q ≤ hi then some idx else m q := by
  unfold insertRange
  rw [foldl_update_range]
  split_ifs <;> first | rfl | (exfalso; omega)

lemma lastCoveringIdx_none (ints : List ZoomInterval) (z : Nat) :
    lastCoveringIdx ints z = none → ∀ zi ∈ ints, ¬ coversZoom zi z := by
  induction ints with
  | nil => intro _ zi hzi; simp at hzi
  | cons a rest ih =>
      intro h zi hzi
      unfold lastCoveringIdx at h
      rcases hlast : lastCoveringIdx rest z with _ | k
      · rw [hlast] at h
        simp only at h
        rcases List.mem_cons.mp hzi with rfl | hmem
        · intro hcov
          rw [if_pos (show zi.min ≤ z ∧ z ≤ zi.max from hcov)] at h
          exact Option.some_ne_none _ h
        · exact ih hlast zi hmem
      · rw [hlast] at h
        simp at h

lemma zoomIntervalMapFrom_spec (rest : List ZoomInterval) :
    ∀ (i : Nat) (m : Nat → Option Nat) (z : Nat),
      (zoomIntervalMapFrom i rest m z = m z ∧ lastCoveringIdx rest z = none) ∨
      (∃ k, lastCoveringIdx rest z = some k ∧
        zoomIntervalMapFrom i rest m z = some (i + k) ∧
        k < rest.length ∧ coversZoom (rest.getD k ⟨0, 0, 0, 0, 0⟩) z) := by
  induction rest with
  | nil => intro i m z; exact Or.inl ⟨rfl, rfl⟩
  | cons zi rest ih =>
      intro i m z
      have hstep : zoomIntervalMapFrom i (zi :: rest) m z
          = zoomIntervalMapFrom (i + 1) rest (insertRange m zi.min zi.max i) z := rfl
      rcases ih (i + 1) (insertRange m zi.min zi.max i) z with ⟨heq, hnone⟩ | ⟨k, hlast, heq, hk, hcov⟩
      · by_cases hcov : coversZoom zi z
        · refine Or.inr ⟨0, ?_, ?_, by simp, by simpa using hcov⟩
          · unfold lastCoveringIdx
            rw [hnone]
            simp only [if_pos (show zi.min ≤ z ∧ z ≤ zi.max from hcov)]
          · rw [hstep, heq, insertRange_apply,
              if_pos (show zi.min ≤ z ∧ z ≤ zi.max from hcov)]
            simp
        · refine Or.inl ⟨?_, ?_⟩
          · rw [hstep, heq, insertRange_apply,
              if_neg (show ¬ (zi.min ≤ z ∧ z ≤ zi.max) from hcov)]
          · unfold lastCoveringIdx
            rw [hnone]
            simp only [if_neg (show ¬ (zi.min ≤ z ∧ z ≤ zi.max) from hcov)]
      · refine Or.inr ⟨k + 1, ?_, ?_, by simpa using hk, by simpa using hcov⟩
        · unfold lastCoveringIdx
          rw [hlast]
        · rw [hstep, heq]
          congr 1
          omega

lemma zoom_interval_map_covering (ints : List ZoomInterval) (z : Nat)
    (h : ∃ zi ∈ ints, coversZoom zi z) :
    ∃ k, zoom_interval_map ints z = some k ∧ k < ints.length ∧
      coversZoom (ints.getD k ⟨0, 0, 0, 0, 0⟩) z := by
  rcases zoomIntervalMapFrom_spec ints 0 (fun _ => none) z with ⟨_, hnone⟩ | ⟨k, _, heq, hk, hcov⟩
  · rcases h with ⟨zi, hzi, hcov⟩
    exact absurd hcov (lastCoveringIdx_none ints z hnone zi hzi)
  · exact ⟨k, by simpa [zoom_interval_map] using heq, hk, hcov⟩

lemma zoom_interval_map_not_covering (ints : List ZoomInterval) (z : Nat)
    (h : ∀ zi ∈ ints, ¬ coversZoom zi z) :
    zoom_interval_map ints z = none := by
  rcases zoomIntervalMapFrom_spec ints 0 (fun _ => none) z with ⟨heq, _⟩ | ⟨k, _, _, hk, hcov⟩
  · simpa [zoom_interval_map] using heq
  · have hmem : ints.getD k ⟨0, 0, 0, 0, 0⟩ ∈ ints := by
      rw [List.getD_eq_getElem ints _ hk]
      exact List.getElem_mem hk
    exact absurd hcov (h _ hmem)

/-- Model of MapFile from src/src/mapsforge/mod.rs: only the header fields
the verified functions read (the tile-pixel-size hint from the header and
the zoom interval list); the memory mapping, tag schemas and tile indices
are not consulted by the guards under verification. -/
structure MapFile where
  tile_size : Nat
  zoom_intervals : List ZoomInterval
deriving DecidableEq, Repr

/-- Zoom adjustment computed inside MapFile::desired_zoom_level
(src/src/mapsforge/mod.rs lines 305-311):
`(cur_zoom as f32 + (tile_size / self.header.tile_size as f32).log2().round())
 .clamp(0.0, 22.0) as u8`.
f32 arithmetic is modeled over the reals: log2 is Real.logb 2 and the f32
round (half away from zero) agrees with Mathlib round except at exact
half-integers, which log2 of a ratio of representable (rational) sizes
never attains. The clamped sum is integer valued, so the `as u8`
truncation is Int.toNat of the clamped integer. -/
noncomputable def zoom_adj (hdr_tile_size cur_zoom : Nat) (tile_size : ℝ) : Nat :=
  (min 22 (max 0
    ((cur_zoom : ℤ) + round (Real.logb 2 (tile_size / (hdr_tile_size : ℝ)))))).toNat

/-- MapFile::desired_zoom_level from src/src/mapsforge/mod.rs: look the
adjusted zoom up in zoom_interval_map; on a hit return the base zoom of
that interval, otherwise return cur_zoom unchanged. -/
noncomputable def MapFile.desired_zoom_level (m : MapFile) (cur_zoom : Nat)
    (tile_size : ℝ) : Nat :=
  match zoom_interval_map m.zoom_intervals (zoom_adj m.tile_size cur_zoom tile_size) with
  | some idx => (m.zoom_intervals.getD idx ⟨0, 0, 0, 0, 0⟩).base
  | none => cur_zoom

/-- Outcome of MapFile::tile (src/src/mapsforge/mod.rs lines 313-344) up to
the non-base-zoom guard: the `.unwrap()` on the zoom map panics when the
zoom is in no interval; the `unimplemented!` guard fires when the found
interval's base differs from the requested zoom; otherwise control reaches
the parsing code, abstracted here with the subfile index and tile indices. -/
inductive TileQueryResult where
  | panicNoInterval
  | errorNonBaseZoom
  | parsesTile (subfile x y : Nat)
deriving DecidableEq, Repr

/-- MapFile::tile control flow from src/src/mapsforge/mod.rs: the map
lookup, the unwrap, and the base-zoom guard, with the parse branch
abstracted as parsesTile. -/
def MapFile.tile (m : MapFile) (zoom x y : Nat) : TileQueryResult :=
  match zoom_interval_map m.zoom_intervals zoom with
  | none => TileQueryResult.panicNoInterval
  | some idx =>
      if (m.zoom_intervals.getD idx ⟨0, 0, 0, 0, 0⟩).base ≠ zoom then
        TileQueryResult.errorNonBaseZoom
      else TileQueryResult.parsesTile idx x y

/-- C7: if some zoom interval covers z but no interval covering z has z as
its base zoom (with disjoint interval ranges this says exactly that z is
covered but is not the base of the covering interval), then MapFile::tile
raises the non-base-zoom error and never reaches the parsing branch. -/
theorem tile_non_base_zoom_errors (m : MapFile) (zoom x y : Nat)
    (h1 : ∃ zi ∈ m.zoom_intervals, coversZoom zi zoom)
    (h2 : ∀ zi ∈ m.zoom_intervals, coversZoom zi zoom → zi.base ≠ zoom) :
    MapFile.tile m zoom x y = TileQueryResult.errorNonBaseZoom := by
  rcases zoom_interval_map_covering m.zoom_intervals zoom h1 with ⟨k, heq, hk, hcov⟩
  have hmem : m.zoom_intervals.getD k ⟨0, 0, 0, 0, 0⟩ ∈ m.zoom_intervals := by
    rw [List.getD_eq_getElem m.zoom_intervals _ hk]
    exact List.getElem_mem hk
  unfold MapFile.tile
  rw [heq]
  simp only [if_pos (h2 _ hmem hcov)]

/-- Sample map model shared by the zoom-level theorems: tile size hint 256
and a single zoom interval with base 9 covering zoom levels 8 to 10. -/
def sampleMap : MapFile := ⟨256, [⟨9, 8, 10, 0, 0⟩]⟩

/-- C7 (witness): requesting zoom 8 (covered, but the base is 9) errors. -/
theorem tile_non_base_zoom_errors_witness :
    MapFile.tile sampleMap 8 1 1 = TileQueryResult.errorNonBaseZoom :=
  tile_non_base_zoom_errors sampleMap 8 1 1 (by decide) (by decide)

lemma sampleMap_zoom_adj : zoom_adj sampleMap.tile_size 3 256 = 3 := by
  unfold zoom_adj
  have h1 : ((256 : ℝ) / ((sampleMap.tile_size : Nat) : ℝ)) = 1 := by
    show ((256 : ℝ) / ((256 : Nat) : ℝ)) = 1
    norm_num
  rw [h1, Real.logb_one, round_zero]
  decide

/-- C2 (counterexample): the claim says that when no zoom interval covers
the computed target, desired_zoom_level returns no zoom level at all; on
the sample map with tile size equal to the header hint (so the logarithm
term is zero) and current zoom 3, the target 3 is covered by no interval,
yet the function returns the zoom level 3 (the current zoom unchanged). -/
theorem desired_zoom_level_not_none :
    MapFile.desired_zoom_level sampleMap 3 256 = 3 ∧
      (∀ zi ∈ sampleMap.zoom_intervals,
        ¬ coversZoom zi (zoom_adj sampleMap.tile_size 3 256)) := by
  constructor
  · unfold MapFile.desired_zoom_level
    rw [sampleMap_zoom_adj]
    rfl
  · intro zi hzi
    rw [sampleMap_zoom_adj]
    have : zi = (⟨9, 8, 10, 0, 0⟩ : ZoomInterval) := by
      simpa [sampleMap] using hzi
    subst this
    decide

/-- C2 (amended): desired_zoom_level computes the target
clamp(cur_zoom + round(log2(tile_size / header.tile_size)), 0, 22); when no
interval's min..=max range covers the target it returns cur_zoom unchanged
(not none), and when some interval covers the target it returns the base
zoom of the covering interval the zoom map resolves to. -/
theorem desired_zoom_level_spec (m : MapFile) (cur_zoom : Nat) (tile_size : ℝ) :
    ((∀ zi ∈ m.zoom_intervals, ¬ coversZoom zi (zoom_adj m.tile_size cur_zoom tile_size)) →
      MapFile.desired_zoom_level m cur_zoom tile_size = cur_zoom) ∧
    ((∃ zi ∈ m.zoom_intervals, coversZoom zi (zoom_adj m.tile_size cur_zoom tile_size)) →
      ∃ k, k < m.zoom_intervals.length ∧
        coversZoom (m.zoom_intervals.getD k ⟨0, 0, 0, 0, 0⟩)
          (zoom_adj m.tile_size cur_zoom tile_size) ∧
        MapFile.desired_zoom_level m cur_zoom tile_size
          = (m.zoom_intervals.getD k ⟨0, 0, 0, 0, 0⟩).base) := by
  constructor
  · intro hno
    unfold MapFile.desired_zoom_level
    rw [zoom_interval_map_not_covering _ _ hno]
  · intro hex
    rcases zoom_interval_map_covering _ _ hex with ⟨k, heq, hk, hcov⟩
    refine ⟨k, hk, hcov, ?_⟩
    unfold MapFile.desired_zoom_level
    rw [heq]

/-- C2 (witness): the amended theorem applied to the sample map at current
zoom 3 with tile size 256 equal to the header hint. -/
theorem desired_zoom_level_spec_witness :
    MapFile.desired_zoom_level sampleMap 3 256 = 3 :=
  (desired_zoom_level_spec sampleMap 3 256).1 (by
    intro zi hzi
    rw [sampleMap_zoom_adj]
    have : zi = (⟨9, 8, 10, 0, 0⟩ : ZoomInterval) := by
      simpa [sampleMap] using hzi
    subst this
    decide)

/-- Alias so the TagValue constructor named String can declare its field. -/
abbrev Str := String

/-- Tag value from src/src/mapsforge/mod.rs (enum TagValue): the literal
and dynamically typed variants; i8, i16 and i32 payloads are modeled by
Int, the f32 payload by a rational. -/
inductive TagValue where
  | Literal (s : Str)
  | Byte (i : Int)
  | Short (i : Int)
  | Int (i : Int)
  | Float (q : Rat)
  | String (s : Str)
deriving DecidableEq, Repr

/-- Way record from src/src/mapsforge/mod.rs, restricted to the fields the
verified functions read (tags, layer, name); size, subtile_map,
house_number, reference, label_pos and blocks are never consulted by the
classifiers under verification. -/
structure Way where
  layer : Int
  tags : List (String × TagValue)
  name : Option String
deriving DecidableEq, Repr

namespace theme

/-- RGBA color, the payload of skia Color4f in src/src/theme.rs; the four
f32 channels are modeled by rationals (they are only stored, never
computed with). -/
structure Color4f where
  r : Rat
  g : Rat
  b : Rat
  a : Rat
deriving DecidableEq, Repr

/-- Paint style used by Material::build_paint in src/src/theme.rs. -/
inductive PaintStyle where
  | Fill
  | Stroke
deriving DecidableEq, Repr

/-- The data Material::build_paint in src/src/theme.rs puts into a skia
Paint: the color, anti-aliasing on, the style, stroke width 1.0. -/
structure Paint where
  color : Color4f
  anti_alias : Bool
  style : PaintStyle
  stroke_width : Rat
deriving DecidableEq, Repr

/-- Material from src/src/theme.rs: optional fill and stroke colors. -/
structure Material where
  fill : Option Color4f
  stroke : Option Color4f
deriving DecidableEq, Repr

/-- Material::build_paint from src/src/theme.rs. -/
def Material.build_paint (color : Color4f) (style : PaintStyle) : Paint :=
  ⟨color, true, style, 1⟩

/-- Material::paints from src/src/theme.rs: a fill paint when fill is set,
then a stroke paint when stroke is set. -/
def Material.paints (m : Material) : List Paint :=
  (m.fill.toList.map (fun f => Material.build_paint f PaintStyle.Fill)) ++
    (m.stroke.toList.map (fun s => Material.build_paint s PaintStyle.Stroke))

/-- Entity type of a matcher, from src/src/theme.rs. -/
inductive EntityType where
  | Any
  | Path
  | Area
  | Point
deriving DecidableEq, Repr

/-- Tag matching mode, from src/src/theme.rs; the HashSet of literal
values is modeled as a list queried with contains. -/
inductive TagMatch where
  | Present
  | Literal (values : List String)
  | Regex (pattern : String)
deriving DecidableEq, Repr

/-- TagMatch::from_values from src/src/theme.rs. -/
def TagMatch.from_values (values : List String) : TagMatch :=
  TagMatch.Literal values

/-- Matcher from src/src/theme.rs; the tags HashMap is modeled as an
association list (iteration order cannot change the matched material, as
every tag of a matcher yields the same material). -/
structure Matcher where
  entity_type : EntityType
  tags : List (String × TagMatch)
  material : String
deriving DecidableEq, Repr

/-- Theme from src/src/theme.rs; the materials HashMap is an association
list keyed by material name. -/
structure Theme where
  materials : List (String × Material)
  matchers : List Matcher
deriving DecidableEq, Repr

/-- One tag entry of a matcher tested against the tags of a way, the body
of the inner loop of Theme::match_way in src/src/theme.rs: the key must be
present among the way tags and the value must satisfy the TagMatch. A
Regex match calls unimplemented! in the source (a panic); no default theme
instals a Regex matcher, and the model returns no match there. -/
def tagEntryMatches (wayTags : List (String × TagValue)) (entry : String × TagMatch) : Bool :=
  match wayTags.lookup entry.1 with
  | none => false
  | some v =>
      match entry.2 with
      | TagMatch.Present => true
      | TagMatch.Literal values =>
          match v with
          | TagValue.Literal s => values.contains s
          | _ => false
      | TagMatch.Regex _ => false

/-- The matcher loop of Theme::match_way from src/src/theme.rs: skip Point
matchers; derive area from an area=yes tag; skip Area matchers for
non-area ways and Path matchers for area ways; the first remaining matcher
with at least one matching tag entry returns the lookup of its material
name in the materials table (which is none when the name is absent). -/
def matchWayLoop (materials : List (String × Material))
    (wayTags : List (String × TagValue)) : List Matcher → Option Material
  | [] => none
  | matcher :: rest =>
      if matcher.entity_type = EntityType.Point then
        matchWayLoop materials wayTags rest
      else
        let area := wayTags.lookup "area" = some (TagValue.Literal "yes")
        if (matcher.entity_type = EntityType.Area ∧ ¬ area) ∨
            (matcher.entity_type = EntityType.Path ∧ area) then
          matchWayLoop materials wayTags rest
        else if matcher.tags.any (fun entry => tagEntryMatches wayTags entry) then
          materials.lookup matcher.material
        else
          matchWayLoop materials wayTags rest

/-- Theme::match_way from src/src/theme.rs. -/
def Theme.match_way (t : Theme) (way : Way) : Option Material :=
  matchWayLoop t.materials way.tags t.matchers

/-- The outline default theme from src/src/theme.rs. -/
def outline : Theme :=
  ⟨[("outline", ⟨none, some ⟨1, 1, 1, 1⟩⟩)],
   [⟨EntityType.Any, [], "outline"⟩]⟩

/-- The basic default theme from src/src/theme.rs, with the materials and
matchers verbatim; note the materials table key "bsrrier" while the
barrier matcher requests material "barrier". Color components are the
source literals as rationals with opacity 0.8. -/
def basic : Theme :=
  ⟨[("water_path", ⟨none, some ⟨1/5, 1/5, 1, 4/5⟩⟩),
    ("water_area", ⟨some ⟨1/2, 1/2, 1, 4/5⟩, none⟩),
    ("land", ⟨some ⟨4/5, 4/5, 4/5, 4/5⟩, none⟩),
    ("road", ⟨none, some ⟨1/5, 1/5, 1/5, 4/5⟩⟩),
    ("building", ⟨some ⟨3/5, 3/5, 3/5, 4/5⟩, none⟩),
    ("bsrrier", ⟨none, some ⟨2/5, 1/5, 1/5, 4/5⟩⟩),
    ("greenspace", ⟨some ⟨4/5, 1, 4/5, 4/5⟩, none⟩),
    ("rail", ⟨none, some ⟨1/5, 1/5, 4/5, 4/5⟩⟩)],
   [⟨EntityType.Area,
     [("natural", TagMatch.from_values ["sea", "water"]),
      ("waterway", TagMatch.Present)],
     "water_area"⟩,
    ⟨EntityType.Area,
     [("natural", TagMatch.from_values ["nosea"])],
     "land"⟩,
    ⟨EntityType.Path,
     [("natural", TagMatch.from_values ["sea", "water"]),
      ("waterway", TagMatch.Present)],
     "water_path"⟩,
    ⟨EntityType.Path,
     [("highway", TagMatch.Present),
      ("bridge", TagMatch.Present),
      ("aeroway", TagMatch.from_values ["apron", "runway", "taxiway"])],
     "road"⟩,
    ⟨EntityType.Path,
     [("barrier", TagMatch.Present)],
     "barrier"⟩,
    ⟨EntityType.Path,
     [("building", TagMatch.Present)],
     "building"⟩,
    ⟨EntityType.Area,
     [("landuse", TagMatch.from_values ["brownfield", "cemetery", "farm",
        "farmland", "farmyard", "forest", "grass", "meadow", "orchard",
        "recreation_ground", "village_green", "vineyard", "wood"]),
      ("leisure", TagMatch.from_values ["dog_park", "garden",
        "nature_reserve", "park", "pitch", "playground"]),
      ("natural", TagMatch.from_values ["grassland", "heath", "land",
        "marsh", "scrub", "wetland"])],
     "greenspace"⟩,
    ⟨EntityType.Path,
     [("railway", TagMatch.from_values ["rail"])],
     "rail"⟩]⟩

end theme

/-- A way carrying a barrier tag and no area tag, as in the claim. -/
def barrierWay : Way := ⟨0, [("barrier", TagValue.Literal "fence")], none⟩

/-- C3: under the basic theme, a way without area=yes that carries a
barrier tag is claimed to classify to the barrier material (a Some); in
the code the barrier matcher wins but its material name "barrier" is
absent from the materials table, which holds the key "bsrrier" instead, so
match_way returns none and the way is not drawn. -/
theorem basic_barrier_way_unmatched :
    theme.Theme.match_way theme.basic barrierWay = none ∧
      theme.basic.materials.lookup "barrier" = none ∧
      (theme.basic.materials.lookup "bsrrier").isSome = true ∧
      (theme.basic.matchers.filter
        (fun m => m.tags.any (fun entry => entry.1 == "barrier"))).map
          theme.Matcher.material = ["barrier"] := by
  refine ⟨?_, by rfl, by rfl, by rfl⟩
  rfl

/-- Planar coordinate from src/src/mapsforge/mod.rs via render.rs
(struct Coord { x: i64, y: i64 }). -/
structure Coord where
  x : Int
  y : Int
deriving DecidableEq, Repr

/-- Axis-aligned bounding box from src/src/render.rs: an empty flag and
min and max corners (both (0,0) for the empty box). -/
structure BoundingBox where
  empty : Bool
  min : Coord
  max : Coord
deriving DecidableEq, Repr

/-- BoundingBox::empty from src/src/render.rs (renamed: empty is the field
name). -/
def BoundingBox.emptyBox : BoundingBox :=
  ⟨true, ⟨0, 0⟩, ⟨0, 0⟩⟩

/-- BoundingBox::from_corners from src/src/render.rs. -/
def BoundingBox.from_corners (corners : Coord × Coord) : BoundingBox :=
  ⟨false,
   ⟨Min.min corners.1.x corners.2.x, Min.min corners.1.y corners.2.y⟩,
   ⟨Max.max corners.1.x corners.2.x, Max.max corners.1.y corners.2.y⟩⟩

/-- BoundingBox::corners from src/src/render.rs. -/
def BoundingBox.corners (bb : BoundingBox) : Option (Coord × Coord) :=
  if bb.empty then none else some (bb.min, bb.max)

/-- BoundingBox::include from src/src/render.rs (renamed: include is a
Lean keyword): the four comparison-guarded assignments amount to the
componentwise min and max with the new point. -/
def BoundingBox.includePoint (bb : BoundingBox) (point : Coord) : BoundingBox :=
  if bb.empty then ⟨false, point, point⟩
  else
    ⟨false,
     ⟨Min.min bb.min.x point.x, Min.min bb.min.y point.y⟩,
     ⟨Max.max bb.max.x point.x, Max.max bb.max.y point.y⟩⟩

/-- BoundingBox::union from src/src/render.rs: clone self, then include
the corners of the other box when it is not empty. -/
def BoundingBox.union (bb other : BoundingBox) : BoundingBox :=
  if other.empty then bb
  else (bb.includePoint other.min).includePoint other.max

/-- BoundingBox::intersection from src/src/render.rs. -/
def BoundingBox.intersection (bb other : BoundingBox) : BoundingBox :=
  if bb.empty ∨ other.empty then BoundingBox.emptyBox
  else
    let xmin := Max.max bb.min.x other.min.x
    let xmax := Min.min bb.max.x other.max.x
    let ymin := Max.max bb.min.y other.min.y
    let ymax := Min.min bb.max.y other.max.y
    if xmin > xmax ∨ ymin > ymax then BoundingBox.emptyBox
    else ⟨false, ⟨xmin, ymin⟩, ⟨xmax, ymax⟩⟩

/-- BoundingBox::width from src/src/render.rs. -/
def BoundingBox.width (bb : BoundingBox) : Int :=
  if bb.empty then 0 else bb.max.x - bb.min.x

/-- BoundingBox::height from src/src/render.rs. -/
def BoundingBox.height (bb : BoundingBox) : Int :=
  if bb.empty then 0 else bb.max.y - bb.min.y

/-- BoundingBox::midpoint from src/src/render.rs; i64 division truncates,
hence Int.div. -/
def BoundingBox.midpoint (bb : BoundingBox) : Option Coord :=
  if bb.empty then none
  else some ⟨Int.tdiv (bb.min.x + bb.max.x) 2, Int.tdiv (bb.min.y + bb.max.y) 2⟩

/-- BoundingBox::max_dimension from src/src/render.rs. -/
def BoundingBox.max_dimension (bb : BoundingBox) : Int :=
  Max.max bb.width bb.height

/-- BoundingBox::is_empty from src/src/render.rs: the max dimension is
zero. -/
def BoundingBox.is_empty (bb : BoundingBox) : Bool :=
  bb.max_dimension == 0

/-- Material enum from src/src/render.rs. -/
inductive Material where
  | Unknown
  | Land
  | Water
  | Road
  | Building
  | Barrier
  | Greenspace
deriving DecidableEq, Repr

/-- The value inside an `if let Some(TagValue::Literal(v)) = tags.get(k)`
test from Material::from_tags: some v exactly when the lookup finds a
Literal tag value. -/
def literalValue : Option TagValue → Option String
  | some (TagValue.Literal s) => some s
  | _ => none

/-- The match over the natural tag value in Material::from_tags
(src/src/render.rs lines 108-116), arms verbatim. -/
def naturalMaterial (natural : String) : Option Material :=
  match natural with
  | "sea" | "water" => some Material.Water
  | "nosea" => some Material.Land
  | "grassland" | "heath" | "land" | "marsh" | "scrub" | "wetland" =>
      some Material.Greenspace
  | "" => none
  | _ => none

/-- The match over the leisure tag value in Material::from_tags
(src/src/render.rs lines 117-123), arms verbatim. -/
def leisureMaterial (leisure : String) : Option Material :=
  match leisure with
  | "dog_park" | "garden" | "nature_reserve" | "park" | "pitch" | "playground" =>
      some Material.Greenspace
  | "" => none
  | _ => none

/-- The match over the landuse tag value in Material::from_tags
(src/src/render.rs lines 124-130), arms verbatim. -/
def landuseMaterial (landuse : String) : Option Material :=
  match landuse with
  | "brownfield" | "cemetery" | "farm" | "farmland" | "farmyard" | "forest"
  | "grass" | "meadow" | "orchard" | "recreation_ground" | "village_green"
  | "vineyard" | "wood" => some Material.Greenspace
  | "" => none
  | _ => none

/-- Material::from_tags from src/src/render.rs lines 107-135: the if-let
chain on Literal-valued natural, leisure and landuse tags, then the
contains_key chain on building, highway and barrier. -/
def Material.from_tags (tags : List (String × TagValue)) : Option Material :=
  match literalValue (tags.lookup "natural") with
  | some natural => naturalMaterial natural
  | none =>
      match literalValue (tags.lookup "leisure") with
      | some leisure => leisureMaterial leisure
      | none =>
          match literalValue (tags.lookup "landuse") with
          | some landuse => landuseMaterial landuse
          | none =>
              if (tags.lookup "building").isSome then some Material.Building
              else if (tags.lookup "highway").isSome then some Material.Road
              else if (tags.lookup "barrier").isSome then some Material.Barrier
              else none

/-- Geometry from src/src/render.rs. -/
inductive Geometry where
  | Path (polies : List (List Coord))
  | Point (point : Coord)
deriving DecidableEq, Repr

/-- Object from src/src/render.rs. -/
structure Object where
  geo : Geometry
  name : Option String
  material : Material
deriving DecidableEq, Repr

/-- RenderTile from src/src/render.rs; the BTreeMap of layers is modeled
as an association list in ascending layer-key order. -/
structure RenderTile where
  zoom : Nat
  x : Int
  y : Int
  layers : List (Int × List Object)
deriving DecidableEq, Repr

/-- RenderTile::empty from src/src/render.rs (renamed like
BoundingBox::empty). -/
def RenderTile.emptyTile (zoom : Nat) (x y : Int) : RenderTile :=
  ⟨zoom, x, y, []⟩

/-- UpdateEvent from src/src/main.rs: the tile variant delivered to the UI
with the generation it was requested under. -/
inductive UpdateEvent where
  | Tile (generation : Nat) (tile : RenderTile)
deriving DecidableEq, Repr

/-- The closure spawned on the worker pool by
RenderManager::async_viewport_tiles (src/src/render.rs lines 234-246),
run to completion: the staleness guard against the loaded value of the
generation counter, the cache probe, the construction-and-insert on a
miss, and the delivery on the updater. The constructed
`Arc::new(RenderTile::new(map.tile(zoom, x, y), ...))` is abstracted as
the new_tile argument: the guard and the cache logic never inspect it.
The result is the cache after the job and the list of updater events the
job sends. -/
def render_job (generation cur_generation : Nat)
    (cache : Nat × Nat → Option RenderTile) (x y : Nat)
    (new_tile : RenderTile) :
    (Nat × Nat → Option RenderTile) × List UpdateEvent :=
  if generation < cur_generation then (cache, [])
  else
    match cache (x, y) with
    | some existing_tile => (cache, [UpdateEvent.Tile generation existing_tile])
    | none =>
        (fun k => if k = (x, y) then some new_tile else cache k,
         [UpdateEvent.Tile generation new_tile])

/-- C6: a render job that starts when its captured generation is below the
loaded current generation returns early: the cache is unchanged and no
update event is delivered. -/
theorem stale_render_job_no_effect (generation cur_generation : Nat)
    (cache : Nat × Nat → Option RenderTile) (x y : Nat) (new_tile : RenderTile)
    (h : generation < cur_generation) :
    render_job generation cur_generation cache x y new_tile = (cache, []) := by
  unfold render_job
  rw [if_pos h]

/-- C6 (witness): generation 1 against current generation 2 on an empty
cache leaves the cache empty and sends nothing. -/
theorem stale_render_job_no_effect_witness :
    render_job 1 2 (fun _ => none) 4 5 (RenderTile.emptyTile 3 4 5)
      = ((fun _ => none), []) :=
  stale_render_job_no_effect 1 2 (fun _ => none) 4 5 (RenderTile.emptyTile 3 4 5)
    (by decide)

/-- Per-tile dispatch decision of RenderManager::async_viewport_tiles
(src/src/render.rs lines 222-247): with ntile = 1 << zoom, indices with
y <= 0, x <= 0, y > ntile or x > ntile get an empty RenderTile sent on
the updater immediately; all others get a parse job spawned on the pool. -/
inductive TileAction where
  | deliverEmpty
  | dispatchJob
deriving DecidableEq, Repr

/-- The branch on the tile indices inside the double loop of
async_viewport_tiles, src/src/render.rs line 225. -/
def tileAction (zoom : Nat) (x y : Int) : TileAction :=
  let ntile : Int := 2 ^ zoom
  if y ≤ 0 ∨ x ≤ 0 ∨ y > ntile ∨ x > ntile then TileAction.deliverEmpty
  else TileAction.dispatchJob

/-- C1 (counterexample): the claim says indices with both coordinates in
[0, 2^z] - explicitly including x = 0 - dispatch a parse job; at zoom 1
the tile (0, 1) has both coordinates in [0, 2], yet the code delivers an
empty RenderTile immediately because its test uses x <= 0, not x < 0. -/
theorem tileAction_zero_column_delivers_empty :
    tileAction 1 0 1 = TileAction.deliverEmpty ∧
      ¬ ((0 : Int) < 0 ∨ (1 : Int) < 0 ∨ (0 : Int) > 2 ^ 1 ∨ (1 : Int) > 2 ^ 1) := by
  constructor
  · rfl
  · decide

/-- C1 (amended): an empty RenderTile is synthesized and delivered
immediately exactly for x <= 0 or y <= 0 or x > 2^z or y > 2^z; a parse
job is dispatched exactly for both indices in [1, 2^z]. -/
theorem tileAction_spec (zoom : Nat) (x y : Int) :
    tileAction zoom x y = TileAction.deliverEmpty ↔
      (x ≤ 0 ∨ y ≤ 0 ∨ x > 2 ^ zoom ∨ y > 2 ^ zoom) := by
  unfold tileAction
  simp only []
  split_ifs with h
  · exact ⟨fun _ => by tauto, fun _ => rfl⟩
  · constructor
    · intro heq
      exact absurd heq (by simp)
    · intro hd
      exact absurd (by tauto) h

/-- C1 (amended, witness): at zoom 2 the tile (0, 3) gets the immediate
empty delivery. -/
theorem tileAction_spec_witness :
    tileAction 2 0 3 = TileAction.deliverEmpty :=
  (tileAction_spec 2 0 3).mpr (by decide)

/-- The per-map culling step of async_viewport_tiles, src/src/render.rs
line 217: a map is skipped when the intersection of its projected bounds
with the viewport is_empty. -/
def map_skipped (map_bounds : Coord × Coord) (viewport : BoundingBox) : Bool :=
  ((BoundingBox.from_corners map_bounds).intersection viewport).is_empty

/-- C10: is_empty is true exactly when the larger of width and height is
zero, so it is also true for every non-empty degenerate box whose min
equals max (a single point); consequently async_viewport_tiles skips a
map whose bounds meet the viewport in exactly one point. -/
theorem is_empty_spec :
    (∀ bb : BoundingBox, bb.is_empty = true ↔ Max.max bb.width bb.height = 0) ∧
    (∀ p : Coord, (BoundingBox.from_corners (p, p)).is_empty = true) ∧
    (∀ (mb : Coord × Coord) (vp : BoundingBox) (p : Coord),
      (BoundingBox.from_corners mb).intersection vp
        = (⟨false, p, p⟩ : BoundingBox) →
      map_skipped mb vp = true) := by
  refine ⟨?_, ?_, ?_⟩
  · intro bb
    unfold BoundingBox.is_empty BoundingBox.max_dimension
    exact beq_iff_eq
  · intro p
    simp [BoundingBox.is_empty, BoundingBox.max_dimension, BoundingBox.width,
      BoundingBox.height, BoundingBox.from_corners]
  · intro mb vp p h
    unfold map_skipped
    rw [h]
    simp [BoundingBox.is_empty, BoundingBox.max_dimension, BoundingBox.width,
      BoundingBox.height]

/-- C10 (witness): map bounds (0,0)-(10,10) and a viewport from (10,10) to
(20,20) intersect in the single point (10,10) and the map is skipped. -/
theorem is_empty_spec_witness :
    map_skipped (⟨0, 0⟩, ⟨10, 10⟩) (BoundingBox.from_corners (⟨10, 10⟩, ⟨20, 20⟩))
      = true :=
  is_empty_spec.2.2 (⟨0, 0⟩, ⟨10, 10⟩) (BoundingBox.from_corners (⟨10, 10⟩, ⟨20, 20⟩))
    ⟨10, 10⟩ (by decide)

lemma literalValue_of_eq {o : Option TagValue} {v : String}
    (h : o = some (TagValue.Literal v)) : literalValue o = some v := by
  rw [h]
  rfl

lemma naturalMaterial_eq_none (v : String)
    (hv : ¬ v ∈ (["sea", "water", "nosea", "grassland", "heath", "land",
      "marsh", "scrub", "wetland"] : List String)) :
    naturalMaterial v = none := by
  unfold naturalMaterial
  split <;> simp_all

lemma leisureMaterial_eq_none (v : String)
    (hv : ¬ v ∈ (["dog_park", "garden", "nature_reserve", "park", "pitch",
      "playground"] : List String)) :
    leisureMaterial v = none := by
  unfold leisureMaterial
  split <;> simp_all

lemma landuseMaterial_eq_none (v : String)
    (hv : ¬ v ∈ (["brownfield", "cemetery", "farm", "farmland", "farmyard",
      "forest", "grass", "meadow", "orchard", "recreation_ground",
      "village_green", "vineyard", "wood"] : List String)) :
    landuseMaterial v = none := by
  unfold landuseMaterial
  split <;> simp_all

/-- C9: a Literal-valued natural tag short-circuits Material::from_tags:
whenever its value is outside the recognized sets the classifier returns
none no matter what other tags (building, highway, barrier, ...) are
present; and likewise for leisure and landuse once the earlier keys carry
no Literal value. -/
theorem from_tags_literal_short_circuit :
    (∀ (tags : List (String × TagValue)) (v : String),
      tags.lookup "natural" = some (TagValue.Literal v) →
      ¬ v ∈ (["sea", "water", "nosea", "grassland", "heath", "land",
        "marsh", "scrub", "wetland"] : List String) →
      Material.from_tags tags = none) ∧
    (∀ (tags : List (String × TagValue)) (v : String),
      literalValue (tags.lookup "natural") = none →
      tags.lookup "leisure" = some (TagValue.Literal v) →
      ¬ v ∈ (["dog_park", "garden", "nature_reserve", "park", "pitch",
        "playground"] : List String) →
      Material.from_tags tags = none) ∧
    (∀ (tags : List (String × TagValue)) (v : String),
      literalValue (tags.lookup "natural") = none →
      literalValue (tags.lookup "leisure") = none →
      tags.lookup "landuse" = some (TagValue.Literal v) →
      ¬ v ∈ (["brownfield", "cemetery", "farm", "farmland", "farmyard",
        "forest", "grass", "meadow", "orchard", "recreation_ground",
        "village_green", "vineyard", "wood"] : List String) →
      Material.from_tags tags = none) := by
  refine ⟨?_, ?_, ?_⟩
  · intro tags v h hv
    unfold Material.from_tags
    rw [literalValue_of_eq h]
    exact naturalMaterial_eq_none v hv
  · intro tags v hnat h hv
    unfold Material.from_tags
    rw [hnat, literalValue_of_eq h]
    exact leisureMaterial_eq_none v hv
  · intro tags v hnat hleis h hv
    unfold Material.from_tags
    rw [hnat, hleis, literalValue_of_eq h]
    exact landuseMaterial_eq_none v hv

/-- C9 (witness): unrecognized Literal values of natural, leisure and
landuse each force none, even alongside building, highway and barrier
tags. -/
theorem from_tags_literal_short_circuit_witness :
    Material.from_tags
        [("natural", TagValue.Literal "volcano"), ("building", TagValue.Literal "yes")]
      = none ∧
    Material.from_tags
        [("leisure", TagValue.Literal "casino"), ("highway", TagValue.Literal "primary")]
      = none ∧
    Material.from_tags
        [("landuse", TagValue.Literal "military"), ("barrier", TagValue.Literal "wall")]
      = none :=
  ⟨from_tags_literal_short_circuit.1 _ "volcano" (by rfl) (by decide),
   from_tags_literal_short_circuit.2.1 _ "casino" (by rfl) (by rfl) (by decide),
   from_tags_literal_short_circuit.2.2 _ "military" (by rfl) (by rfl) (by rfl) (by decide)⟩

/-- MAX_DETAIL from src/src/main.rs line 24: smallest feature to display
in pixels. -/
def MAX_DETAIL : Int := 4

/-- The closure `xform` of Viewer::place_tile (src/src/main.rs line 264):
world coordinates to pixel coordinates, with truncating i64 division by
the u32 scale. -/
def xform (offset : Coord) (scale : Nat) (point : Coord) : Coord :=
  ⟨Int.tdiv (point.x - offset.x) (scale : Int),
   Int.tdiv (point.y - offset.y) (scale : Int)⟩

/-- The bounding box built while emitting a Path in Viewer::place_tile
(src/src/main.rs lines 286-298): every transformed point of every
polyline (the move_to point and each line_to point) is included into a
box that starts empty. -/
def path_bounds (offset : Coord) (scale : Nat) (polies : List (List Coord)) :
    BoundingBox :=
  polies.foldl
    (fun bb poly => (poly.map (xform offset scale)).foldl
      BoundingBox.includePoint bb)
    BoundingBox.emptyBox

/-- The Path branch of Viewer::place_tile (src/src/main.rs lines 286-308)
summarized by its canvas draw_path calls, one per paint of the material
(obj.material.paints()). none models the panic of poly[0] on an empty
polyline; some [] means the feature-size filter skipped the path. -/
def place_tile_path (offset : Coord) (scale : Nat) (paints : List theme.Paint)
    (polies : List (List Coord)) : Option (List theme.Paint) :=
  if polies.any (fun p => p.isEmpty) then none
  else if (path_bounds offset scale polies).max_dimension > MAX_DETAIL then
    some paints
  else some []

/-- C8: with no empty polyline, a path whose transformed bounding box has
max dimension at most MAX_DETAIL = 4 pixels produces no draw_path call,
and one whose max dimension exceeds 4 produces exactly one draw_path call
per paint of its material. -/
theorem place_tile_path_size_filter (offset : Coord) (scale : Nat)
    (paints : List theme.Paint) (polies : List (List Coord))
    (hne : polies.any (fun p => p.isEmpty) = false) :
    ((path_bounds offset scale polies).max_dimension ≤ MAX_DETAIL →
      place_tile_path offset scale paints polies = some []) ∧
    (MAX_DETAIL < (path_bounds offset scale polies).max_dimension →
      place_tile_path offset scale paints polies = some paints) := by
  unfold place_tile_path
  rw [if_neg (by simp [hne])]
  constructor
  · intro h
    rw [if_neg (by omega)]
  · intro h
    rw [if_pos (by omega)]

/-- C8 (witness): with stroke paints of the outline material, a one-pixel
segment is skipped and a ten-pixel segment is drawn with the material
paints. -/
theorem place_tile_path_size_filter_witness :
    place_tile_path ⟨0, 0⟩ 1 (theme.Material.paints ⟨none, some ⟨1, 1, 1, 1⟩⟩)
        [[⟨0, 0⟩, ⟨1, 1⟩]] = some [] ∧
    place_tile_path ⟨0, 0⟩ 1 (theme.Material.paints ⟨none, some ⟨1, 1, 1, 1⟩⟩)
        [[⟨0, 0⟩, ⟨10, 10⟩]]
      = some (theme.Material.paints ⟨none, some ⟨1, 1, 1, 1⟩⟩) :=
  ⟨(place_tile_path_size_filter ⟨0, 0⟩ 1 _ [[⟨0, 0⟩, ⟨1, 1⟩]] (by rfl)).1 (by decide),
   (place_tile_path_size_filter ⟨0, 0⟩ 1 _ [[⟨0, 0⟩, ⟨10, 10⟩]] (by rfl)).2 (by decide)⟩
